import Mathlib

/-!
Verification of the streaming ingestion / chunked-upload pipeline of
pipelinewise-target-s3-csv, as a shallow embedding of the two source files
`target_s3_csv/__init__.py` (message processor and driver) and
`target_s3_csv/s3.py` (class `S3MultipartUploader`).

Modelling conventions:
- Python dicts that keep insertion order (records to be written as CSV rows,
  the `schemas` / `uploaders` registries) are association lists.
- Machine-level byte encoding, CSV quoting and the boto3 S3 client are
  external collaborators; a Part's payload is retained structurally
  (optional header row plus the field matrix) instead of as the bytes
  produced by `buffer.getvalue().encode('utf-8')`, and the opaque ETag
  returned by `upload_part` is dropped.
- Python exceptions are an `Except Err` result; an `IndexError` from
  `self.records[0]` on an empty list and the `ValueError` that
  `csv.DictWriter` (default `extrasaction='raise'`) raises for a row with
  keys outside `fieldnames` are the two errors the uploader can produce.
-/

namespace S3CsvTarget

/-- Minimal JSON value universe for record fields and STATE payloads. -/
inductive Json where
  | null : Json
  | num (n : Int) : Json
  | str (s : String) : Json
  | obj (fields : List (String × Json)) : Json

/-- A flattened record: insertion-ordered mapping column name to cell value
(`utils.flatten_record` output; cell values abstracted to strings). -/
abbrev Row := List (String × String)

/-- The key order of a row, i.e. Python `[*record]` on the dict. -/
def rowKeys (r : Row) : List String := r.map Prod.fst

/-- Python `record.get(key, restval)` on the row dict (first binding wins,
as in a dict where keys are unique). -/
def rowGet (r : Row) (k : String) : Option String :=
  (r.find? (fun kv => kv.1 = k)).map Prod.snd

/-- Errors the embedded code can raise. -/
inductive Err where
  | unknownStream (stream : String) : Err
  | invalidOperation : Err
  | indexError : Err
  | valueError : Err
deriving DecidableEq, Repr

/-- One output line of `csv.DictWriter.writerow` for row `r` under header
`fieldnames`: with the default `extrasaction='raise'` a key of `r` outside
`fieldnames` raises ValueError, otherwise each field renders via
`rowdict.get(key, restval)` with `restval=''`. -/
def writeRow (fieldnames : List String) (r : Row) : Except Err (List String) :=
  if r.any (fun kv => decide (kv.1 ∉ fieldnames)) then .error .valueError
  else .ok (fieldnames.map (fun k => (rowGet r k).getD ""))

/-- `csv.DictWriter.writerows`: sequential, stops at the first bad row. -/
def writeRows (fieldnames : List String) (rs : List Row) :
    Except Err (List (List String)) :=
  rs.mapM (writeRow fieldnames)

/-- Structural content of one uploaded Part: the optional header line and
the matrix of rendered fields. -/
structure CsvPart where
  header : Option (List String)
  rows : List (List String)
deriving DecidableEq, Repr

/-- Entry of `self.parts`; the ETag is abstracted to the uploaded payload. -/
structure PartRec where
  partNumber : Nat
  data : CsvPart
deriving DecidableEq, Repr

/-- State of `S3MultipartUploader` (bucket/key/session handle and the csv
delimiter and quote configuration act on the abstracted byte encoding only
and are omitted). -/
structure Uploader where
  part_records : Nat
  include_header_row : Bool
  parts : List PartRec
  records : List Row
  total_records : Nat
deriving DecidableEq, Repr

/-- `S3MultipartUploader.__init__`: `part_records` is
`int(config.get('upload_batch_record_count', 100000))`, header emission
defaults to on, parts and records start empty. -/
def initUploader (T : Nat) : Uploader :=
  { part_records := T
  , include_header_row := true
  , parts := []
  , records := []
  , total_records := 0 }

/-- `S3MultipartUploader.transform_to_csv`: fieldnames are the key order of
`self.records[0]` (IndexError when the buffer is empty); the header line is
written only when `self.include_header_row` holds and `self.parts` is still
empty; then `writerows(self.records)`. -/
def transform_to_csv (u : Uploader) : Except Err CsvPart :=
  match u.records with
  | [] => .error .indexError
  | r0 :: _ => do
    let fieldnames := rowKeys r0
    let body ← writeRows fieldnames u.records
    pure { header := if u.include_header_row && u.parts.isEmpty
                     then some fieldnames else none
         , rows := body }

/-- `S3MultipartUploader.upload`: the next part number is
`len(self.parts) + 1`; the serialized buffer is sent as that Part, the part
list is extended and the buffer cleared. (The `LOGGER.warn('Nothing to
upload')` branch for an empty buffer does not return, so the empty case
falls through into `transform_to_csv` and its IndexError.) -/
def upload (u : Uploader) : Except Err Uploader := do
  let part_number := u.parts.length + 1
  let data ← transform_to_csv u
  pure { u with parts := u.parts ++ [⟨part_number, data⟩], records := [] }

/-- `S3MultipartUploader.add_record`: append to the buffer, bump the total
counter, and flush via `upload` when the buffer length reaches
`self.part_records`, reporting `(True, record_count)` for a flush and
`(False, None)` otherwise. -/
def add_record (u : Uploader) (r : Row) :
    Except Err (Bool × Option Nat × Uploader) :=
  let u1 : Uploader :=
    { u with records := u.records ++ [r], total_records := u.total_records + 1 }
  if u1.part_records ≤ u1.records.length then do
    let record_count := u1.records.length
    let u2 ← upload u1
    pure (true, some record_count, u2)
  else
    pure (false, none, u1)

/-- `S3MultipartUploader.complete`: flush the remaining buffer when
non-empty, then commit the object from the ordered part list (the
`complete_multipart_upload` call is an external effect with no modelled
state). -/
def complete (u : Uploader) : Except Err Uploader :=
  if u.records.isEmpty then pure u else upload u

/-- Feeding a stream's rows one by one through `add_record`, as `main` does
for the RECORD events of one stream. -/
def addAll (u : Uploader) : List Row → Except Err Uploader
  | [] => pure u
  | r :: rs => do
    let out ← add_record u r
    addAll out.2.2 rs

/-! ## Message stream processor (`process_message_stream`) -/

/-- Association-list lookup, the membership test / read of a Python dict. -/
def assocLookup {α : Type} : List (String × α) → String → Option α
  | [], _ => none
  | kv :: t, k => if kv.1 = k then some kv.2 else assocLookup t k

/-- Association-list write, Python dict assignment: replace in place when
the key exists, else append (insertion order preserved). -/
def assocSet {α : Type} : List (String × α) → String → α → List (String × α)
  | [], k, v => [(k, v)]
  | kv :: t, k, v => if kv.1 = k then (k, v) :: t else kv :: assocSet t k v

/-- Verdict of `validators[stream].validate(float_to_decimal(record))`: the
external jsonschema validator either succeeds, raises the
`decimal.InvalidOperation` precision error, or raises any other validation
error. -/
inductive ValResult where
  | ok : ValResult
  | invalidOperation : ValResult
  | otherFailure : ValResult
deriving DecidableEq, Repr

/-- A parsed singer message (`singer.parse_message(message).asdict()`); the
schema body is abstracted to an identifier that the validation oracle is
keyed on, and a line that fails to parse is outside this universe (decode
failure aborts before the state machine runs). -/
inductive Message where
  | schema (stream : String) (schemaId : Nat) (keyProperties : List String) : Message
  | record (stream : String) (rec : Row) : Message
  | state (value : Json) : Message
  | activateVersion (stream : String) : Message
  | other : Message

/-- `asdict()` of a singer STATE message: the enclosing message object
around the tap-supplied value, `o` at the yield site. -/
def stateMsgDict (v : Json) : Json :=
  Json.obj [("type", Json.str "STATE"), ("value", v)]

/-- A normalized event yielded by `process_message_stream`:
`(o['stream'], flattened_record, 'RECORD')` or `(None, o, 'STATE')`. -/
inductive Event where
  | record (stream : String) (row : Row) : Event
  | state (doc : Json) : Event

/-- Whether an event is the `'STATE'` kind. -/
def Event.isState : Event → Bool
  | .state _ => true
  | _ => false

/-- Registry state of `process_message_stream`: the `schemas` dict (with
its compiled `validators` mirror keyed by the stored schema identifier)
and the `key_properties` dict. -/
structure ProcState where
  schemas : List (String × Nat)
  keyProps : List (String × List String)
deriving Repr

/-- Registries start empty. -/
def initProcState : ProcState := { schemas := [], keyProps := [] }

/-- One iteration of the `process_message_stream` loop. `validate` is the
oracle for the external jsonschema check, `transform` the composite of the
metadata add/remove step and `utils.flatten_record` (both live in the
`utils` module, outside the embedded sources, and no claim depends on
their internals). RECORD for an unregistered stream raises; a validation
failure raises only for the InvalidOperation kind; STATE yields the whole
parsed message object; SCHEMA updates the registries; ACTIVATE_VERSION and
unknown types are discarded. -/
def processMessage (validate : Nat → Row → ValResult) (transform : Row → Row)
    (st : ProcState) : Message → Except Err (ProcState × List Event)
  | .record s r =>
    match assocLookup st.schemas s with
    | none => .error (.unknownStream s)
    | some schemaId =>
      match validate schemaId r with
      | .invalidOperation => .error .invalidOperation
      | _ => .ok (st, [Event.record s (transform r)])
  | .state v => .ok (st, [Event.state (stateMsgDict v)])
  | .schema s id kp =>
    .ok ({ schemas := assocSet st.schemas s id
         , keyProps := assocSet st.keyProps s kp }, [])
  | .activateVersion _ => .ok (st, [])
  | .other => .ok (st, [])

/-- Outcome of draining the processor generator: final registries, the
events yielded before any raise, and the raised error if one occurred. -/
structure ProcOut where
  st : ProcState
  events : List Event
  err : Option Err

/-- The whole generator run: events accumulate in order until the first
raise aborts the stream. -/
def processAll (validate : Nat → Row → ValResult) (transform : Row → Row) :
    ProcState → List Message → ProcOut
  | st, [] => ⟨st, [], none⟩
  | st, m :: ms =>
    match processMessage validate transform st m with
    | .error e => ⟨st, [], some e⟩
    | .ok (st1, evs) =>
      let out := processAll validate transform st1 ms
      ⟨out.st, evs ++ out.events, out.err⟩

/-! ## Driver (`main`) -/

/-- Externally visible actions of one run, in order: a Part committed by
`upload_part`, a checkpoint written by `emit_state`, and the
`complete_multipart_upload` of one stream's uploader. -/
inductive Action where
  | uploadedPart (stream : String) (partNumber : Nat) (rows : Nat) : Action
  | emittedState (doc : Json) : Action
  | completedStream (stream : String) : Action

/-- Driver state of `main`: the per-stream `uploaders` dict (insertion
order = first-RECORD order) and the pending `state_from_tap`. -/
structure Driver where
  uploaders : List (String × Uploader)
  state_from_tap : Option Json

/-- Fresh driver state. -/
def initDriver : Driver := { uploaders := [], state_from_tap := none }

/-- `if stream_name not in uploaders: uploaders[stream_name] = S3MultipartUploader(...)`;
returns the stream's uploader together with the possibly-extended dict. -/
def getOrCreateUploader (l : List (String × Uploader)) (s : String) (T : Nat) :
    Uploader × List (String × Uploader) :=
  match assocLookup l s with
  | some u => (u, l)
  | none => (initUploader T, l ++ [(s, initUploader T)])

/-- One iteration of the `main` event loop: STATE overwrites the pending
checkpoint; RECORD feeds the stream's uploader and, when `add_record`
reports a flush and a checkpoint is pending, emits that checkpoint
immediately after the upload. The returned list is the actions this
iteration performed, in order. -/
def driverStep (T : Nat) (d : Driver) : Event → Except Err (Driver × List Action)
  | .state doc => .ok ({ d with state_from_tap := some doc }, [])
  | .record s row =>
    let gu := getOrCreateUploader d.uploaders s T
    match add_record gu.1 row with
    | .error e => .error e
    | .ok res =>
      let u2 := res.2.2
      let d2 : Driver := { d with uploaders := assocSet gu.2 s u2 }
      if res.1 then
        match d2.state_from_tap with
        | some v =>
          .ok (d2, [Action.uploadedPart s u2.parts.length ((res.2.1).getD 0),
                    Action.emittedState v])
        | none =>
          .ok (d2, [Action.uploadedPart s u2.parts.length ((res.2.1).getD 0)])
      else .ok (d2, [])

/-- Outcome of the driver loop: final driver state, the action trace, and
the error that aborted the loop if one did. -/
structure RunOut where
  d : Driver
  acts : List Action
  err : Option Err

/-- The driver loop over the processed event stream. -/
def runEvents (T : Nat) (d : Driver) : List Event → RunOut
  | [] => ⟨d, [], none⟩
  | e :: es =>
    match driverStep T d e with
    | .error err => ⟨d, [], some err⟩
    | .ok step =>
      let out := runEvents T step.1 es
      ⟨out.d, step.2 ++ out.acts, out.err⟩

/-- The `for u in uploaders.values(): u.complete()` loop of the `finally`
block: finalizes uploaders in insertion order; a raise inside `complete`
aborts the loop (later uploaders are not finalized). A `complete` that
still had buffered rows first commits them as one more Part. -/
def completeAll : List (String × Uploader) → List Action × Option Err
  | [] => ([], none)
  | su :: rest =>
    match complete su.2 with
    | .error e => ([], some e)
    | .ok u2 =>
      let acts := if su.2.records.isEmpty
                  then [Action.completedStream su.1]
                  else [Action.uploadedPart su.1 u2.parts.length su.2.records.length,
                        Action.completedStream su.1]
      let out := completeAll rest
      (acts ++ out.1, out.2)

/-- The whole `finally` block: finalize every uploader, then emit the
pending checkpoint unconditionally (unless the finalize loop raised). -/
def finalize (d : Driver) : List Action × Option Err :=
  match (completeAll d.uploaders).2 with
  | some e => ((completeAll d.uploaders).1, some e)
  | none =>
    match d.state_from_tap with
    | some v => ((completeAll d.uploaders).1 ++ [Action.emittedState v], none)
    | none => ((completeAll d.uploaders).1, none)

/-- A full `main` run over a parsed message list: the processor's events
drive the loop, the `finally` block always runs, and an exception raised in
the `finally` block supersedes the in-flight one. Result: the ordered
action trace and the propagated error, if any. -/
def runMain (validate : Nat → Row → ValResult) (transform : Row → Row)
    (T : Nat) (ms : List Message) : List Action × Option Err :=
  let po := processAll validate transform initProcState ms
  let ro := runEvents T initDriver po.events
  let fo := finalize ro.d
  (ro.acts ++ fo.1,
    match fo.2 with
    | some e => some e
    | none =>
      match ro.err with
      | some e => some e
      | none => po.err)

/-! ## Specification-side definitions -/

/-- Whether a message is a SCHEMA message for stream `s`. -/
def isSchemaFor (s : String) : Message → Prop
  | .schema s2 _ _ => s2 = s
  | _ => False

/-- Reachable-state invariant of one stream's uploader under threshold `T`
and uniform column list `ks`: the buffer holds fewer than `T` rows, all
buffered rows have key list `ks`, the committed parts are numbered densely
from 1, every committed part holds exactly `T` rows, and only part 1
carries the header. -/
structure UInv (T : Nat) (ks : List String) (u : Uploader) : Prop where
  hpr : u.part_records = T
  hhdr : u.include_header_row = true
  hlen : u.records.length < T
  hkeys : ∀ r ∈ u.records, rowKeys r = ks
  hnums : u.parts.map PartRec.partNumber = List.range' 1 u.parts.length
  hsizes : ∀ p ∈ u.parts, p.data.rows.length = T
  hheads : ∀ p ∈ u.parts, (p.data.header.isSome ↔ p.partNumber = 1)

/-! ## Concrete inputs for counterexamples and witnesses -/

/-- Uploader holding a batch whose second row carries the extra column
`b` that the first row does not have. -/
def extraColUploader : Uploader :=
  { initUploader 5 with records := [[("a", "1")], [("a", "2"), ("b", "3")]] }

/-- Checkpoint document of the concrete re-emission run. -/
def c10doc : Json := stateMsgDict (Json.num 7)

/-- Events of the concrete re-emission run: a STATE, then two rows of one
stream under threshold 2, so the second row flushes and releases the
checkpoint. -/
def c10e1 : List Event :=
  [Event.state c10doc, Event.record "t" [("a", "1")], Event.record "t" [("a", "2")]]

/-- Validation oracle of the concrete two-stream run (always passes). -/
def gateValidate : Nat → Row → ValResult := fun _ _ => ValResult.ok

/-- Record transform of the concrete two-stream run (identity). -/
def gateTransform : Row → Row := id

/-- The enclosing message object of the run's STATE message. -/
def gateDoc : Json := stateMsgDict (Json.num 7)

/-- Concrete run with threshold 2: stream s2 buffers one row, then a STATE
arrives, then two rows of stream s1 trigger s1's flush. -/
def gateMsgs : List Message :=
  [ Message.schema "s1" 0 []
  , Message.schema "s2" 0 []
  , Message.record "s2" [("a", "0")]
  , Message.state (Json.num 7)
  , Message.record "s1" [("a", "1")]
  , Message.record "s1" [("a", "2")] ]

/-! ## Serialization lemmas -/

theorem writeRow_ok (ks : List String) (r : Row) (h : ∀ kv ∈ r, kv.1 ∈ ks) :
    writeRow ks r = .ok (ks.map (fun k => (rowGet r k).getD "")) := by
  unfold writeRow
  rw [if_neg]
  simp only [List.any_eq_true, decide_eq_true_eq, not_exists]
  rintro kv ⟨hm, hn⟩
  exact hn (h kv hm)

theorem writeRow_err (ks : List String) (r : Row) (e : Err)
    (h : writeRow ks r = .error e) : e = Err.valueError := by
  unfold writeRow at h
  split at h
  · exact (Except.error.inj h).symm
  · exact Except.noConfusion h

theorem writeRow_bad (ks : List String) (r : Row)
    (h : ∃ kv ∈ r, kv.1 ∉ ks) : writeRow ks r = .error Err.valueError := by
  unfold writeRow
  rw [if_pos]
  obtain ⟨kv, hm, hn⟩ := h
  simp only [List.any_eq_true, decide_eq_true_eq]
  exact ⟨kv, hm, hn⟩

theorem writeRows_ok (ks : List String) (rs : List Row)
    (h : ∀ r ∈ rs, ∀ kv ∈ r, kv.1 ∈ ks) :
    writeRows ks rs = .ok (rs.map (fun r => ks.map (fun k => (rowGet r k).getD ""))) := by
  induction rs with
  | nil => rfl
  | cons a t ih =>
    unfold writeRows at ih ⊢
    rw [List.mapM_cons, writeRow_ok ks a (h a (List.mem_cons_self a t)),
      ih (fun r hr kv hkv => h r (List.mem_cons_of_mem a hr) kv hkv)]
    rfl

theorem writeRows_bad (ks : List String) (rs : List Row)
    (h : ∃ r ∈ rs, ∃ kv ∈ r, kv.1 ∉ ks) :
    writeRows ks rs = .error Err.valueError := by
  induction rs with
  | nil => simp at h
  | cons a t ih =>
    unfold writeRows at ih ⊢
    rw [List.mapM_cons]
    obtain ⟨r, hr, hbad⟩ := h
    rcases List.mem_cons.mp hr with h0 | h0
    · rw [writeRow_bad ks a (h0 ▸ hbad)]
      rfl
    · cases hw : writeRow ks a with
      | error e =>
        rw [writeRow_err ks a e hw]
        rfl
      | ok v =>
        rw [ih ⟨r, h0, hbad⟩]
        rfl

/-- All of a row's keys fall inside its own key list. -/
theorem keys_self_mem (r : Row) : ∀ kv ∈ r, kv.1 ∈ rowKeys r := by
  intro kv h
  exact List.mem_map_of_mem Prod.fst h

theorem transform_to_csv_ok (u : Uploader) (r0 : Row) (rest : List Row)
    (hrec : u.records = r0 :: rest)
    (h : ∀ r ∈ u.records, ∀ kv ∈ r, kv.1 ∈ rowKeys r0) :
    transform_to_csv u = .ok
      { header := if u.include_header_row && u.parts.isEmpty
                  then some (rowKeys r0) else none
      , rows := u.records.map (fun r =>
          (rowKeys r0).map (fun k => (rowGet r k).getD "")) } := by
  obtain ⟨T, ihr, parts, records, tot⟩ := u
  simp only at hrec
  subst hrec
  unfold transform_to_csv
  simp only
  rw [writeRows_ok (rowKeys r0) (r0 :: rest) h]
  rfl

theorem transform_to_csv_bad (u : Uploader) (r0 : Row) (rest : List Row)
    (hrec : u.records = r0 :: rest)
    (h : ∃ r ∈ u.records, ∃ kv ∈ r, kv.1 ∉ rowKeys r0) :
    transform_to_csv u = .error Err.valueError := by
  obtain ⟨T, ihr, parts, records, tot⟩ := u
  simp only at hrec
  subst hrec
  unfold transform_to_csv
  simp only
  rw [writeRows_bad (rowKeys r0) (r0 :: rest) h]
  rfl

theorem upload_ok (u : Uploader) (r0 : Row) (rest : List Row)
    (hrec : u.records = r0 :: rest)
    (h : ∀ r ∈ u.records, ∀ kv ∈ r, kv.1 ∈ rowKeys r0) :
    upload u = .ok { u with
      parts := u.parts ++ [⟨u.parts.length + 1,
        { header := if u.include_header_row && u.parts.isEmpty
                    then some (rowKeys r0) else none
        , rows := u.records.map (fun r =>
            (rowKeys r0).map (fun k => (rowGet r k).getD "")) }⟩]
      , records := [] } := by
  unfold upload
  rw [transform_to_csv_ok u r0 rest hrec h]
  rfl

/-! ## C7: flush on an empty buffer -/

/-- C7. The claim says a flush (`upload`) on an empty in-memory buffer is a
logged no-op that raises no error. The code logs `Nothing to upload` but
does not return: it falls through to `transform_to_csv`, whose
`self.records[0]` raises IndexError on the empty list. Evaluating the
embedded `upload` on a freshly initialized uploader (empty buffer)
produces that error, contradicting the code's own warning-only intent. -/
theorem upload_empty_buffer_raises :
    upload (initUploader 100000) = .error Err.indexError := rfl

/-! ## C6: column order, missing and extra columns in a part -/

/-- C6 (amended). For a non-empty batch, the part's column order is the key
order of the first row of the batch; a later row lacking some of those
columns renders them as the empty string. But a later row carrying a column
not present in the first row makes the serialization raise a ValueError
(`csv.DictWriter`'s default `extrasaction='raise'`): the extra column is
not silently dropped, the run fails. -/
theorem transform_first_row_policy (u : Uploader) (r0 : Row) (rest : List Row)
    (hrec : u.records = r0 :: rest) :
    ((∀ r ∈ u.records, ∀ kv ∈ r, kv.1 ∈ rowKeys r0) →
      transform_to_csv u = .ok
        { header := if u.include_header_row && u.parts.isEmpty
                    then some (rowKeys r0) else none
        , rows := u.records.map (fun r =>
            (rowKeys r0).map (fun k => (rowGet r k).getD "")) }) ∧
    ((∃ r ∈ u.records, ∃ kv ∈ r, kv.1 ∉ rowKeys r0) →
      transform_to_csv u = .error Err.valueError) :=
  ⟨transform_to_csv_ok u r0 rest hrec, transform_to_csv_bad u r0 rest hrec⟩

/-- C6 counterexample. On the concrete batch `[{a:1}, {a:2, b:3}]` the
claim says serialization still succeeds with column `b` simply absent; the
code instead raises ValueError from `csv.DictWriter.writerows`. -/
theorem transform_extra_column_cex :
    transform_to_csv extraColUploader = .error Err.valueError := rfl

/-- C6 witness: the amended theorem applied to the concrete batch
`[{a:1}, {}]`, whose second row renders the missing column `a` empty. -/
theorem transform_first_row_policy_witness :
    transform_to_csv { initUploader 5 with records := [[("a", "1")], []] } =
      .ok { header := some ["a"], rows := [["1"], [""]] } :=
  (transform_first_row_policy
      { initUploader 5 with records := [[("a", "1")], []] }
      [("a", "1")] [[]] rfl).1 (by decide)

/-! ## C3: add_record flush reporting -/

/-- C3. `add_record` appends the row; if that brings the buffer length to
at least the `part_records` threshold it flushes and returns
`(True, record_count)` with `record_count` the full size of the flushed
batch, otherwise it returns `(False, None)` leaving the parts untouched
and the row buffered. The rows are assumed column-compatible (same key
list), which is what makes the triggered flush succeed. -/
theorem add_record_flush_policy (u : Uploader) (r : Row) (ks : List String)
    (hks : ∀ x ∈ u.records ++ [r], rowKeys x = ks) :
    (u.part_records ≤ u.records.length + 1 →
      ∃ u2, add_record u r = .ok (true, some (u.records.length + 1), u2) ∧
        u2.records = [] ∧ u2.parts.length = u.parts.length + 1) ∧
    (u.records.length + 1 < u.part_records →
      add_record u r = .ok (false, none,
        { u with records := u.records ++ [r]
               , total_records := u.total_records + 1 })) := by
  have hne : u.records ++ [r] ≠ [] := by simp
  obtain ⟨r0, rest, hcons⟩ := List.exists_cons_of_ne_nil hne
  have hr0 : rowKeys r0 = ks := hks r0 (by rw [hcons]; exact List.mem_cons_self r0 rest)
  have hkeys : ∀ x ∈ u.records ++ [r], ∀ kv ∈ x, kv.1 ∈ rowKeys r0 := by
    intro x hx kv hkv
    rw [hr0, ← hks x hx]
    exact keys_self_mem x kv hkv
  constructor
  · intro hge
    have hup := upload_ok
      { u with records := u.records ++ [r], total_records := u.total_records + 1 }
      r0 rest hcons hkeys
    obtain ⟨u2, hu2, hu2r, hu2p⟩ : ∃ u2,
        upload { u with records := u.records ++ [r],
                        total_records := u.total_records + 1 } = .ok u2 ∧
        u2.records = [] ∧ u2.parts.length = u.parts.length + 1 := by
      rw [hup]
      exact ⟨_, rfl, rfl, by simp⟩
    refine ⟨u2, ?_, hu2r, hu2p⟩
    simp only [add_record]
    rw [if_pos (by simpa using hge)]
    rw [hu2]
    simp
  · intro hlt
    simp only [add_record]
    rw [if_neg (by simpa using Nat.not_le.mpr hlt)]
    rfl

/-- C3 witness: threshold 2, one buffered row, adding a second row flushes
and reports `(True, 2)`. -/
theorem add_record_flush_policy_witness :
    ∃ u2, add_record
        { initUploader 2 with records := [[("a", "1")]], total_records := 1 }
        [("a", "2")] = .ok (true, some 2, u2) ∧
      u2.records = [] ∧ u2.parts.length = 0 + 1 :=
  (add_record_flush_policy
    { initUploader 2 with records := [[("a", "1")]], total_records := 1 }
    [("a", "2")] ["a"] (by decide)).1 (by decide)

/-! ## Batching invariant: dense part numbers, full parts, single header -/

theorem initUploader_inv (T : Nat) (ks : List String) (hT : 1 ≤ T) :
    UInv T ks (initUploader T) := by
  refine ⟨rfl, rfl, hT, ?_, rfl, ?_, ?_⟩ <;> simp [initUploader]

theorem add_record_inv (T : Nat) (ks : List String) (u : Uploader) (r : Row)
    (hT : 1 ≤ T) (hinv : UInv T ks u) (hr : rowKeys r = ks) :
    ∃ b c u2, add_record u r = .ok (b, c, u2) ∧ UInv T ks u2 ∧
      u2.parts.length = u.parts.length + (u.records.length + 1) / T ∧
      u2.records.length = (u.records.length + 1) % T := by
  have hks1 : ∀ x ∈ u.records ++ [r], rowKeys x = ks := by
    intro x hx
    rcases List.mem_append.mp hx with h | h
    · exact hinv.hkeys x h
    · rw [List.mem_singleton.mp h]; exact hr
  by_cases hc : T ≤ u.records.length + 1
  · -- the appended row fills the buffer exactly: a flush happens
    have hfull : u.records.length + 1 = T := Nat.le_antisymm hinv.hlen hc
    have hne : u.records ++ [r] ≠ [] := by simp
    obtain ⟨r0, rest, hcons⟩ := List.exists_cons_of_ne_nil hne
    have hr0 : rowKeys r0 = ks := hks1 r0 (by rw [hcons]; exact List.mem_cons_self r0 rest)
    have hkeys : ∀ x ∈ u.records ++ [r], ∀ kv ∈ x, kv.1 ∈ rowKeys r0 := by
      intro x hx kv hkv
      rw [hr0, ← hks1 x hx]
      exact keys_self_mem x kv hkv
    have hup := upload_ok
      { u with records := u.records ++ [r], total_records := u.total_records + 1 }
      r0 rest hcons hkeys
    obtain ⟨u2, hu2, h2pr, h2hdr, h2parts, h2rec⟩ :
        ∃ u2, upload { u with records := u.records ++ [r],
                              total_records := u.total_records + 1 } = .ok u2 ∧
          u2.part_records = u.part_records ∧
          u2.include_header_row = u.include_header_row ∧
          u2.parts = u.parts ++ [⟨u.parts.length + 1,
            { header := if u.parts.isEmpty then some ks else none
            , rows := (u.records ++ [r]).map (fun x =>
                ks.map (fun k => (rowGet x k).getD "")) }⟩] ∧
          u2.records = [] := by
      rw [hup]
      refine ⟨_, rfl, rfl, rfl, ?_, rfl⟩
      simp [hinv.hhdr, hr0]
    refine ⟨true, some (u.records.length + 1), u2, ?_, ?_, ?_, ?_⟩
    · simp only [add_record]
      rw [if_pos (by simpa using hinv.hpr ▸ hc)]
      rw [hu2]
      simp
    · -- the invariant after the flush
      refine ⟨h2pr.trans hinv.hpr, h2hdr.trans hinv.hhdr, ?_, ?_, ?_, ?_, ?_⟩
      · rw [h2rec]; simpa using hT
      · rw [h2rec]; simp
      · rw [h2parts]
        simp only [List.map_append, List.length_append, List.map_cons, List.map_nil,
          List.length_cons, List.length_nil]
        rw [hinv.hnums]
        have h := List.range'_1_concat 1 u.parts.length
        rw [Nat.add_comm 1 u.parts.length] at h
        rw [show u.parts.length + (0 + 1) = u.parts.length + 1 from by omega, ← h]
      · intro p hp
        rw [h2parts] at hp
        rcases List.mem_append.mp hp with h | h
        · exact hinv.hsizes p h
        · rw [List.mem_singleton.mp h]
          simp only [List.length_map, List.length_append]
          simpa using hfull
      · intro p hp
        rw [h2parts] at hp
        rcases List.mem_append.mp hp with h | h
        · exact hinv.hheads p h
        · rw [List.mem_singleton.mp h]
          rcases hpe : u.parts with _ | ⟨q, qs⟩
          · simp
          · simp [hpe]
    · rw [h2parts]
      simp only [List.length_append, List.length_cons, List.length_nil]
      rw [show u.records.length + 1 = T from hfull, Nat.div_self (by omega)]
    · rw [h2rec]
      simp only [List.length_nil]
      rw [show u.records.length + 1 = T from hfull, Nat.mod_self]
  · -- buffer still below threshold: no flush
    have hlt : u.records.length + 1 < T := Nat.lt_of_not_le hc
    refine ⟨false, none,
      { u with records := u.records ++ [r], total_records := u.total_records + 1 },
      ?_, ?_, ?_, ?_⟩
    · simp only [add_record]
      rw [if_neg (by rw [hinv.hpr]; simpa using hc)]
      rfl
    · refine ⟨hinv.hpr, hinv.hhdr, by simpa using hlt, hks1, hinv.hnums, hinv.hsizes, hinv.hheads⟩
    · simp only
      rw [Nat.div_eq_of_lt hlt, Nat.add_zero]
    · simp only [List.length_append, List.length_cons, List.length_nil]
      rw [Nat.mod_eq_of_lt (by simpa using hlt)]

theorem div_chunk (a n T : Nat) (hT : 0 < T) :
    a / T + (a % T + n) / T = (a + n) / T := by
  conv_rhs => rw [← Nat.div_add_mod a T]
  rw [Nat.add_assoc, Nat.mul_add_div hT]

theorem mod_chunk (a n T : Nat) : (a % T + n) % T = (a + n) % T :=
  Nat.mod_add_mod a T n

theorem addAll_inv (T : Nat) (ks : List String) (hT : 1 ≤ T) :
    ∀ (rows : List Row) (u : Uploader), UInv T ks u →
      (∀ r ∈ rows, rowKeys r = ks) →
      ∃ u2, addAll u rows = .ok u2 ∧ UInv T ks u2 ∧
        u2.parts.length = u.parts.length + (u.records.length + rows.length) / T ∧
        u2.records.length = (u.records.length + rows.length) % T := by
  intro rows
  induction rows with
  | nil =>
    intro u hinv _
    refine ⟨u, rfl, hinv, ?_, ?_⟩
    · rw [List.length_nil, Nat.add_zero, Nat.div_eq_of_lt hinv.hlen, Nat.add_zero]
    · rw [List.length_nil, Nat.add_zero, Nat.mod_eq_of_lt hinv.hlen]
  | cons r rs ih =>
    intro u hinv hkr
    obtain ⟨b, c, u1, heq, hinv1, hp1, hr1⟩ :=
      add_record_inv T ks u r hT hinv (hkr r (List.mem_cons_self r rs))
    obtain ⟨u2, heq2, hinv2, hp2, hr2⟩ :=
      ih u1 hinv1 (fun x hx => hkr x (List.mem_cons_of_mem r hx))
    refine ⟨u2, ?_, hinv2, ?_, ?_⟩
    · show (add_record u r).bind (fun out => addAll out.2.2 rs) = .ok u2
      rw [heq]
      exact heq2
    · rw [List.length_cons, hp2, hp1, hr1, Nat.add_assoc,
        div_chunk (u.records.length + 1) rs.length T (by omega),
        show u.records.length + 1 + rs.length = u.records.length + (rs.length + 1)
          from by omega]
    · rw [List.length_cons, hr2, hr1,
        mod_chunk (u.records.length + 1) rs.length T,
        show u.records.length + 1 + rs.length = u.records.length + (rs.length + 1)
          from by omega]

/-- Dense numbering lets part number 1 be found as soon as any part
exists. -/
theorem part_one_exists (u : Uploader)
    (h : u.parts.map PartRec.partNumber = List.range' 1 u.parts.length)
    (hne : u.parts ≠ []) : ∃ p ∈ u.parts, p.partNumber = 1 := by
  have hlen : u.parts.length ≠ 0 := by
    intro h0
    exact hne (List.length_eq_zero.mp h0)
  obtain ⟨k, hk⟩ := Nat.exists_eq_succ_of_ne_zero hlen
  have h1 : (1 : Nat) ∈ u.parts.map PartRec.partNumber := by
    rw [h, hk, List.range'_succ]
    exact List.mem_cons_self 1 (List.range' 2 k)
  obtain ⟨p, hp, hpn⟩ := List.mem_map.mp h1
  exact ⟨p, hp, hpn⟩

/-- The full single-stream run of `main` for one stream: all rows through
`add_record`, then `complete`, with the resulting part layout. -/
theorem run_spec (T : Nat) (ks : List String) (rows : List Row)
    (hT : 1 ≤ T) (hN : 1 ≤ rows.length)
    (hks : ∀ r ∈ rows, rowKeys r = ks) :
    ∃ u, (addAll (initUploader T) rows).bind complete = .ok u ∧
      u.parts.length = rows.length / T + (if rows.length % T = 0 then 0 else 1) ∧
      u.parts.map PartRec.partNumber = List.range' 1 u.parts.length ∧
      (∃ p, u.parts.getLast? = some p ∧
        p.data.rows.length = (if rows.length % T = 0 then T else rows.length % T)) ∧
      (∀ p ∈ u.parts, (p.data.header.isSome ↔ p.partNumber = 1)) ∧
      (∃ p ∈ u.parts, p.partNumber = 1) := by
  obtain ⟨u1, heq1, hinv1, hp1, hr1⟩ :=
    addAll_inv T ks hT rows (initUploader T) (initUploader_inv T ks hT) hks
  simp only [initUploader, List.length_nil, Nat.zero_add] at hp1 hr1
  by_cases h0 : rows.length % T = 0
  · -- the buffer is empty at completion: no further part
    have hrec : u1.records = [] := List.length_eq_zero.mp (by rw [hr1]; exact h0)
    have hcomp : complete u1 = .ok u1 := by
      unfold complete
      rw [if_pos (by simp [hrec])]
      rfl
    have hple : 1 ≤ u1.parts.length := by
      rw [hp1, Nat.one_le_div_iff (by omega)]
      by_contra hc
      rw [Nat.mod_eq_of_lt (by omega)] at h0
      omega
    have hpne : u1.parts ≠ [] := by
      intro h
      rw [h] at hple
      simp at hple
    refine ⟨u1, ?_, ?_, hinv1.hnums, ?_, hinv1.hheads, part_one_exists u1 hinv1.hnums hpne⟩
    · rw [heq1]
      exact hcomp
    · rw [if_pos h0, Nat.add_zero]
      exact hp1
    · refine ⟨u1.parts.getLast hpne, List.getLast?_eq_getLast u1.parts hpne, ?_⟩
      rw [if_pos h0]
      exact hinv1.hsizes (u1.parts.getLast hpne) (List.getLast_mem hpne)
  · -- a final remainder part is committed by complete
    have hlen1 : u1.records.length = rows.length % T := hr1
    have hne : u1.records ≠ [] := by
      intro h
      rw [h] at hlen1
      exact h0 hlen1.symm
    obtain ⟨r0, rest, hcons⟩ := List.exists_cons_of_ne_nil hne
    have hr0 : rowKeys r0 = ks :=
      hinv1.hkeys r0 (by rw [hcons]; exact List.mem_cons_self r0 rest)
    have hkeys : ∀ x ∈ u1.records, ∀ kv ∈ x, kv.1 ∈ rowKeys r0 := by
      intro x hx kv hkv
      rw [hr0, ← hinv1.hkeys x hx]
      exact keys_self_mem x kv hkv
    have hup := upload_ok u1 r0 rest hcons hkeys
    have hcomp : complete u1 = upload u1 := by
      unfold complete
      rw [if_neg (by simp [hcons])]
    obtain ⟨u2, hu2, h2parts⟩ :
        ∃ u2, upload u1 = .ok u2 ∧
          u2.parts = u1.parts ++ [⟨u1.parts.length + 1,
            { header := if u1.parts.isEmpty then some ks else none,
              rows := u1.records.map (fun x =>
                ks.map (fun k => (rowGet x k).getD "")) }⟩] := by
      rw [hup]
      refine ⟨_, rfl, ?_⟩
      simp [hinv1.hhdr, hr0]
    refine ⟨u2, ?_, ?_, ?_, ?_, ?_, ?_⟩
    · rw [heq1]
      show complete u1 = _
      rw [hcomp, hu2]
    · rw [h2parts]
      simp only [List.length_append, List.length_cons, List.length_nil]
      rw [hp1, if_neg h0]
    · rw [h2parts]
      simp only [List.map_append, List.map_cons, List.map_nil, List.length_append,
        List.length_cons, List.length_nil]
      rw [hinv1.hnums]
      have h := List.range'_1_concat 1 u1.parts.length
      rw [Nat.add_comm 1 u1.parts.length] at h
      rw [show u1.parts.length + (0 + 1) = u1.parts.length + 1 from by omega, ← h]
    · rw [h2parts]
      refine ⟨_, List.getLast?_concat u1.parts, ?_⟩
      simp only [List.length_map]
      rw [if_neg h0, ← hlen1]
    · intro p hp
      rw [h2parts] at hp
      rcases List.mem_append.mp hp with h | h
      · exact hinv1.hheads p h
      · rw [List.mem_singleton.mp h]
        rcases hpe : u1.parts with _ | ⟨q, qs⟩
        · simp
        · simp only [hpe, List.isEmpty_cons, List.length_cons]
          constructor
          · intro hs
            simp at hs
          · intro h1
            omega
    · rw [h2parts]
      by_cases hpe : u1.parts = []
      · refine ⟨_, by rw [hpe]; exact List.mem_cons_self _ _, ?_⟩
        rfl
      · obtain ⟨p, hp, hpn⟩ := part_one_exists u1 hinv1.hnums hpe
        exact ⟨p, List.mem_append_left _ hp, hpn⟩

/-- `ceil(N/T)` as `(N + T - 1) / T` splits into whole parts plus the
remainder part. -/
theorem ceil_div_split (N T : Nat) (hT : 1 ≤ T) :
    (N + T - 1) / T = N / T + (if N % T = 0 then 0 else 1) := by
  have hd := Nat.div_add_mod N T
  have hrlt : N % T < T := Nat.mod_lt N (by omega)
  by_cases h0 : N % T = 0
  · rw [if_pos h0]
    have h1 : N + T - 1 = T * (N / T) + (T - 1) := by omega
    rw [h1, Nat.mul_add_div (by omega),
      Nat.div_eq_of_lt (show T - 1 < T from by omega), Nat.add_zero]
  · rw [if_neg h0]
    have h1 : N + T - 1 = T * (N / T + 1) + (N % T - 1) := by
      rw [Nat.mul_add, Nat.mul_one]
      omega
    rw [h1, Nat.mul_add_div (by omega),
      Nat.div_eq_of_lt (show N % T - 1 < T from by omega), Nat.add_zero]

/-! ## C2: part count, dense numbering, last-part size -/

/-- C2. A stream that receives exactly N column-compatible rows
(N = rows.length ≥ 1) under batch threshold T and is then completed ends
with ceil(N/T) = (N + T - 1)/T uploaded Parts, numbered densely
1..ceil(N/T), and the last Part holds N mod T rows (T when T divides N). -/
theorem parts_accounting (T : Nat) (ks : List String) (rows : List Row)
    (hT : 1 ≤ T) (hN : 1 ≤ rows.length)
    (hks : ∀ r ∈ rows, rowKeys r = ks) :
    ∃ u, (addAll (initUploader T) rows).bind complete = .ok u ∧
      u.parts.length = (rows.length + T - 1) / T ∧
      u.parts.map PartRec.partNumber = List.range' 1 ((rows.length + T - 1) / T) ∧
      (∃ p, u.parts.getLast? = some p ∧
        p.data.rows.length = (if rows.length % T = 0 then T else rows.length % T)) := by
  obtain ⟨u, he, hcnt, hnums, hlast, _, _⟩ := run_spec T ks rows hT hN hks
  have hc : u.parts.length = (rows.length + T - 1) / T := by
    rw [hcnt, ceil_div_split rows.length T hT]
  exact ⟨u, he, hc, by rw [← hc]; exact hnums, hlast⟩

/-- C2 witness: 3 one-column rows, threshold 2: two parts numbered 1 and 2,
the last with a single row. -/
theorem parts_accounting_witness :
    ∃ u, (addAll (initUploader 2) [[("a", "1")], [("a", "2")], [("a", "3")]]).bind
        complete = .ok u ∧
      u.parts.length = 2 ∧
      u.parts.map PartRec.partNumber = List.range' 1 2 ∧
      (∃ p, u.parts.getLast? = some p ∧ p.data.rows.length = 1) :=
  parts_accounting 2 ["a"] [[("a", "1")], [("a", "2")], [("a", "3")]]
    (by decide) (by decide) (by decide)

/-! ## C8: header appears exactly in Part 1 -/

/-- C8. In a completed run of a stream with N ≥ 1 column-compatible rows
(header emission enabled, as `S3MultipartUploader` defaults it), part
number 1 exists and a part carries the header row exactly when its part
number is 1, however many parts were uploaded. -/
theorem header_only_in_first_part (T : Nat) (ks : List String) (rows : List Row)
    (hT : 1 ≤ T) (hN : 1 ≤ rows.length)
    (hks : ∀ r ∈ rows, rowKeys r = ks) :
    ∃ u, (addAll (initUploader T) rows).bind complete = .ok u ∧
      (∃ p ∈ u.parts, p.partNumber = 1) ∧
      (∀ p ∈ u.parts, (p.data.header.isSome ↔ p.partNumber = 1)) := by
  obtain ⟨u, he, _, _, _, hhead, hone⟩ := run_spec T ks rows hT hN hks
  exact ⟨u, he, hone, hhead⟩

/-- C8 witness: same 3-row, threshold-2 run; the header sits in part 1
only. -/
theorem header_only_in_first_part_witness :
    ∃ u, (addAll (initUploader 2) [[("b", "1")], [("b", "2")], [("b", "3")]]).bind
        complete = .ok u ∧
      (∃ p ∈ u.parts, p.partNumber = 1) ∧
      (∀ p ∈ u.parts, (p.data.header.isSome ↔ p.partNumber = 1)) :=
  header_only_in_first_part 2 ["b"] [[("b", "1")], [("b", "2")], [("b", "3")]]
    (by decide) (by decide) (by decide)

/-! ## Processor lemmas -/

theorem assocLookup_set_ne {α : Type} (l : List (String × α)) (k : String)
    (v : α) (s : String) (h : ¬ k = s) :
    assocLookup (assocSet l k v) s = assocLookup l s := by
  induction l with
  | nil =>
    simp only [assocSet, assocLookup]
    rw [if_neg h]
  | cons kv t ih =>
    simp only [assocSet]
    by_cases hk : kv.1 = k
    · rw [if_pos hk]
      simp only [assocLookup]
      rw [if_neg h, if_neg (fun hh => h (hk.symm.trans hh))]
    · rw [if_neg hk]
      simp only [assocLookup]
      by_cases hs : kv.1 = s
      · rw [if_pos hs, if_pos hs]
      · rw [if_neg hs, if_neg hs]
        exact ih

/-- A processed message that is not a SCHEMA for `s` cannot register `s`. -/
theorem processMessage_unregistered (validate : Nat → Row → ValResult)
    (transform : Row → Row) (st st1 : ProcState) (m : Message)
    (evs : List Event)
    (h : processMessage validate transform st m = .ok (st1, evs)) (s : String)
    (hns : ¬ isSchemaFor s m) (hl : assocLookup st.schemas s = none) :
    assocLookup st1.schemas s = none := by
  cases m with
  | schema s2 id kp =>
    injection h with h4
    injection h4 with h5 h6
    subst h5
    exact (assocLookup_set_ne st.schemas s2 id s (fun he => hns he)).trans hl
  | record s3 r =>
    simp only [processMessage] at h
    split at h
    · exact Except.noConfusion h
    · split at h
      · exact Except.noConfusion h
      · injection h with h4
        injection h4 with h5 h6
        subst h5
        exact hl
  | state v =>
    injection h with h4
    injection h4 with h5 h6
    subst h5
    exact hl
  | activateVersion s2 =>
    injection h with h4
    injection h4 with h5 h6
    subst h5
    exact hl
  | other =>
    injection h with h4
    injection h4 with h5 h6
    subst h5
    exact hl

/-- No SCHEMA for `s` in the consumed prefix means `s` stays
unregistered. -/
theorem processAll_unregistered (validate : Nat → Row → ValResult)
    (transform : Row → Row) :
    ∀ (ms : List Message) (st : ProcState) (s : String),
    (∀ m ∈ ms, ¬ isSchemaFor s m) →
    assocLookup st.schemas s = none →
    assocLookup (processAll validate transform st ms).st.schemas s = none := by
  intro ms
  induction ms with
  | nil =>
    intro st s _ h
    exact h
  | cons m t ih =>
    intro st s hns h
    cases hm : processMessage validate transform st m with
    | error e =>
      simp only [processAll, hm]
      exact h
    | ok p =>
      obtain ⟨st1, evs⟩ := p
      simp only [processAll, hm]
      exact ih st1 s (fun x hx => hns x (List.mem_cons_of_mem m hx))
        (processMessage_unregistered validate transform st st1 m evs hm s
          (hns m (List.mem_cons_self m t)) h)

/-- Processing `ms1 ++ ms2` when `ms1` raises nothing: the generator
continues from `ms1`'s final registries, events concatenate. -/
theorem processAll_append (validate : Nat → Row → ValResult)
    (transform : Row → Row) :
    ∀ (ms1 : List Message) (st : ProcState) (ms2 : List Message),
    (processAll validate transform st ms1).err = none →
    processAll validate transform st (ms1 ++ ms2) =
      ⟨(processAll validate transform
          (processAll validate transform st ms1).st ms2).st,
       (processAll validate transform st ms1).events ++
         (processAll validate transform
           (processAll validate transform st ms1).st ms2).events,
       (processAll validate transform
         (processAll validate transform st ms1).st ms2).err⟩ := by
  intro ms1
  induction ms1 with
  | nil =>
    intro st ms2 _
    rfl
  | cons m t ih =>
    intro st ms2 herr
    cases hm : processMessage validate transform st m with
    | error e =>
      exfalso
      have hx : (processAll validate transform st (m :: t)).err = some e := by
        simp only [processAll, hm]
      rw [hx] at herr
      exact Option.noConfusion herr
    | ok p =>
      obtain ⟨st1, evs⟩ := p
      have herr1 : (processAll validate transform st1 t).err = none := by
        have hx : (processAll validate transform st (m :: t)).err =
            (processAll validate transform st1 t).err := by
          simp only [processAll, hm]
        rw [← hx]
        exact herr
      show processAll validate transform st (m :: (t ++ ms2)) = _
      simp only [processAll, hm, ih st1 ms2 herr1]
      simp [List.append_assoc]

/-! ## C4: RECORD before SCHEMA aborts the run -/

/-- C4. A RECORD message for a stream with no earlier SCHEMA message makes
the run abort with the unknown-stream error: the final event list is
exactly the events of the messages before it, so no output event is ever
produced for that record (nor for anything after it). -/
theorem record_before_schema_aborts (validate : Nat → Row → ValResult)
    (transform : Row → Row) (pre post : List Message) (s : String) (r : Row)
    (hnos : ∀ m ∈ pre, ¬ isSchemaFor s m)
    (hok : (processAll validate transform initProcState pre).err = none) :
    processAll validate transform initProcState
        (pre ++ Message.record s r :: post) =
      ⟨(processAll validate transform initProcState pre).st,
       (processAll validate transform initProcState pre).events,
       some (Err.unknownStream s)⟩ := by
  have hreg : assocLookup
      (processAll validate transform initProcState pre).st.schemas s = none :=
    processAll_unregistered validate transform pre initProcState s hnos rfl
  rw [processAll_append validate transform pre initProcState
    (Message.record s r :: post) hok]
  have hm : processMessage validate transform
      (processAll validate transform initProcState pre).st
      (Message.record s r) = .error (.unknownStream s) := by
    simp only [processMessage, hreg]
  simp only [processAll, hm]
  simp

/-- C4 witness: the single-message run `[RECORD t]` with no SCHEMA at all
aborts with `unknownStream t` and yields no event. -/
theorem record_before_schema_aborts_witness :
    processAll (fun _ _ => ValResult.ok) id initProcState
        [Message.record "t" [("a", "1")]] =
      ⟨initProcState, [], some (Err.unknownStream "t")⟩ :=
  record_before_schema_aborts (fun _ _ => ValResult.ok) id [] [] "t"
    [("a", "1")] (fun m h => absurd h (List.not_mem_nil m)) rfl

/-! ## C9: validation failure policy -/

/-- C9. For a RECORD of a registered stream whose record fails validation:
the `decimal.InvalidOperation` kind is re-raised and aborts the run with no
event for the record, while any other validation failure is swallowed and
the record still yields its `(stream, row, RECORD)` output event. -/
theorem validation_failure_policy (validate : Nat → Row → ValResult)
    (transform : Row → Row) (pre post : List Message) (s : String) (r : Row)
    (i : Nat)
    (hok : (processAll validate transform initProcState pre).err = none)
    (hreg : assocLookup
      (processAll validate transform initProcState pre).st.schemas s = some i) :
    (validate i r = ValResult.invalidOperation →
      processAll validate transform initProcState
          (pre ++ Message.record s r :: post) =
        ⟨(processAll validate transform initProcState pre).st,
         (processAll validate transform initProcState pre).events,
         some Err.invalidOperation⟩) ∧
    (validate i r = ValResult.otherFailure →
      processAll validate transform initProcState
          (pre ++ [Message.record s r]) =
        ⟨(processAll validate transform initProcState pre).st,
         (processAll validate transform initProcState pre).events ++
           [Event.record s (transform r)],
         none⟩) := by
  constructor
  · intro hval
    rw [processAll_append validate transform pre initProcState
      (Message.record s r :: post) hok]
    have hm : processMessage validate transform
        (processAll validate transform initProcState pre).st
        (Message.record s r) = .error .invalidOperation := by
      simp only [processMessage, hreg, hval]
    simp only [processAll, hm]
    simp
  · intro hval
    rw [processAll_append validate transform pre initProcState
      [Message.record s r] hok]
    have hm : processMessage validate transform
        (processAll validate transform initProcState pre).st
        (Message.record s r) =
        .ok ((processAll validate transform initProcState pre).st,
          [Event.record s (transform r)]) := by
      simp only [processMessage, hreg, hval]
    simp only [processAll, hm]
    simp

/-- C9 witness: a registered stream `t` (schema id 5) whose validator
always raises InvalidOperation aborts the run at the RECORD with no event
for it. -/
theorem validation_failure_policy_witness :
    processAll (fun _ _ => ValResult.invalidOperation) id initProcState
        [Message.schema "t" 5 [], Message.record "t" [("a", "1")]] =
      ⟨{ schemas := [("t", 5)], keyProps := [("t", [])] }, [],
        some Err.invalidOperation⟩ :=
  (validation_failure_policy (fun _ _ => ValResult.invalidOperation) id
    [Message.schema "t" 5 []] [] "t" [("a", "1")] 5 rfl rfl).1 rfl

/-! ## C5: what a STATE message yields and what gets emitted -/

/-- C5 (amended). On a STATE message with value v the processor yields the
event `(None, o, 'STATE')` where `o` is the whole parsed message object
(the dict with the `type` and `value` entries), not the bare value; and
what `emit_state` serializes on release is that whole message object. -/
theorem state_event_carries_message (validate : Nat → Row → ValResult)
    (transform : Row → Row) (st : ProcState) (v : Json) (T : Nat) :
    processMessage validate transform st (Message.state v) =
      .ok (st, [Event.state (stateMsgDict v)]) ∧
    (runMain validate transform T [Message.state v]).1 =
      [Action.emittedState (stateMsgDict v)] :=
  ⟨rfl, rfl⟩

/-- C5 counterexample. For the concrete run `[STATE {value: 1}]` the
yielded event and the emitted document are the enclosing message object
`{type: STATE, value: 1}`, which differs from the claimed bare value
`1`. -/
theorem state_event_value_cex :
    (processAll (fun _ _ => ValResult.ok) id initProcState
        [Message.state (Json.num 1)]).events =
      [Event.state (Json.obj [("type", Json.str "STATE"),
        ("value", Json.num 1)])] ∧
    (runMain (fun _ _ => ValResult.ok) id 2 [Message.state (Json.num 1)]).1 =
      [Action.emittedState (Json.obj [("type", Json.str "STATE"),
        ("value", Json.num 1)])] ∧
    Json.obj [("type", Json.str "STATE"), ("value", Json.num 1)] ≠
      Json.num 1 :=
  ⟨rfl, rfl, fun h => Json.noConfusion h⟩

/-! ## Driver lemmas -/

/-- A RECORD event never changes the pending checkpoint. -/
theorem driverStep_keeps_pending (T : Nat) (d : Driver) (e : Event)
    (hns : e.isState = false) :
    ∀ d2 acts, driverStep T d e = .ok (d2, acts) →
    d2.state_from_tap = d.state_from_tap := by
  cases e with
  | state doc => simp [Event.isState] at hns
  | record s row =>
    intro d2 acts h
    simp only [driverStep] at h
    split at h
    · exact Except.noConfusion h
    · split at h
      · split at h
        · injection h with h4
          injection h4 with h5 h6
          rw [← h5]
        · injection h with h4
          injection h4 with h5 h6
          rw [← h5]
      · injection h with h4
        injection h4 with h5 h6
        rw [← h5]

/-- The pending checkpoint survives any stretch of the loop that sees no
STATE event. -/
theorem runEvents_keeps_pending (T : Nat) :
    ∀ (es : List Event) (d : Driver),
    (∀ e ∈ es, e.isState = false) →
    (runEvents T d es).d.state_from_tap = d.state_from_tap := by
  intro es
  induction es with
  | nil =>
    intro d _
    rfl
  | cons e t ih =>
    intro d hns
    cases hs : driverStep T d e with
    | error err =>
      simp only [runEvents, hs]
    | ok step =>
      obtain ⟨d1, acts⟩ := step
      simp only [runEvents, hs]
      rw [ih d1 (fun x hx => hns x (List.mem_cons_of_mem e hx))]
      exact driverStep_keeps_pending T d e (hns e (List.mem_cons_self e t)) d1 acts hs

/-- A non-raising `finally` block with a pending checkpoint ends by
emitting it. -/
theorem finalize_pending_emit (d : Driver) (v : Json)
    (hp : d.state_from_tap = some v) (hf : (finalize d).2 = none) :
    (finalize d).1.getLast? = some (Action.emittedState v) := by
  unfold finalize at hf ⊢
  cases hc : (completeAll d.uploaders).2 with
  | some e =>
    rw [hc] at hf
    exact Option.noConfusion hf
  | none =>
    rw [hp]
    show ((completeAll d.uploaders).1 ++ [Action.emittedState v]).getLast? =
      some (Action.emittedState v)
    exact List.getLast?_concat (completeAll d.uploaders).1

/-! ## C10: a released checkpoint is emitted again at shutdown -/

/-- C10. The driver never clears `state_from_tap` after a flush-triggered
emission: if the loop emitted the pending checkpoint v and it is still the
pending value, and no further STATE event arrives before the loop ends,
then the non-raising `finally` block emits the very same v once more as its
last action — a released checkpoint is output more than once. -/
theorem released_checkpoint_reemitted (T : Nat) (e1 e2 : List Event) (v : Json)
    (hemit : Action.emittedState v ∈ (runEvents T initDriver e1).acts)
    (hpend : (runEvents T initDriver e1).d.state_from_tap = some v)
    (hnostate : ∀ e ∈ e2, e.isState = false)
    (hfin : (finalize (runEvents T (runEvents T initDriver e1).d e2).d).2 = none) :
    Action.emittedState v ∈ (runEvents T initDriver e1).acts ∧
    (finalize (runEvents T (runEvents T initDriver e1).d e2).d).1.getLast? =
      some (Action.emittedState v) := by
  refine ⟨hemit, finalize_pending_emit _ v ?_ hfin⟩
  rw [runEvents_keeps_pending T e2 (runEvents T initDriver e1).d hnostate]
  exact hpend

/-- C10 witness: in that run the loop emits the checkpoint once after the
flush, and shutdown emits the same document again. -/
theorem released_checkpoint_reemitted_witness :
    Action.emittedState c10doc ∈ (runEvents 2 initDriver c10e1).acts ∧
    (finalize (runEvents 2 (runEvents 2 initDriver c10e1).d []).d).1.getLast? =
      some (Action.emittedState c10doc) :=
  released_checkpoint_reemitted 2 c10e1 [] c10doc
    (List.Mem.tail _ (List.Mem.head _)) rfl
    (fun e h => absurd h (List.not_mem_nil e)) rfl

/-! ## Trace shape of the driver loop -/

/-- One loop iteration appends nothing, one Part upload, or one Part
upload immediately followed by one checkpoint emission. -/
theorem driverStep_shape (T : Nat) (d : Driver) (e : Event) (d2 : Driver)
    (acts : List Action) (h : driverStep T d e = .ok (d2, acts)) :
    acts = [] ∨ (∃ s n c, acts = [Action.uploadedPart s n c]) ∨
    (∃ s n c v, acts = [Action.uploadedPart s n c, Action.emittedState v]) := by
  cases e with
  | state doc =>
    injection h with h4
    injection h4 with h5 h6
    exact Or.inl h6.symm
  | record s row =>
    simp only [driverStep] at h
    split at h
    · exact Except.noConfusion h
    · split at h
      · split at h
        · injection h with h4
          injection h4 with h5 h6
          exact Or.inr (Or.inr ⟨s, _, _, _, h6.symm⟩)
        · injection h with h4
          injection h4 with h5 h6
          exact Or.inr (Or.inl ⟨s, _, _, h6.symm⟩)
      · injection h with h4
        injection h4 with h5 h6
        exact Or.inl h6.symm

/-- In the loop's action trace, every checkpoint emission sits immediately
after the Part upload of the flush that released it. -/
theorem runEvents_emit_after_upload (T : Nat) :
    ∀ (es : List Event) (d : Driver) (i : Nat) (v : Json),
    (runEvents T d es).acts[i]? = some (Action.emittedState v) →
    ∃ s n c, 1 ≤ i ∧
      (runEvents T d es).acts[i-1]? = some (Action.uploadedPart s n c) := by
  intro es
  induction es with
  | nil =>
    intro d i v h
    simp [runEvents] at h
  | cons e t ih =>
    intro d i v h
    cases hs : driverStep T d e with
    | error err =>
      simp only [runEvents, hs] at h
      simp at h
    | ok step =>
      obtain ⟨d1, acts⟩ := step
      simp only [runEvents, hs] at h ⊢
      rcases driverStep_shape T d e d1 acts hs with h0 | ⟨s, n, c, h0⟩ |
        ⟨s, n, c, v2, h0⟩
      · subst h0
        rw [List.nil_append] at h ⊢
        exact ih d1 i v h
      · subst h0
        rw [List.singleton_append] at h ⊢
        match i with
        | 0 =>
          rw [List.getElem?_cons_zero] at h
          injection h with h4
          exact Action.noConfusion h4
        | Nat.succ j =>
          rw [List.getElem?_cons_succ] at h
          obtain ⟨s2, n2, c2, hj1, hup⟩ := ih d1 j v h
          obtain ⟨k, rfl⟩ : ∃ k, j = k + 1 := ⟨j - 1, by omega⟩
          refine ⟨s2, n2, c2, by omega, ?_⟩
          show (Action.uploadedPart s n c :: (runEvents T d1 t).acts)[k + 1]? = _
          rw [List.getElem?_cons_succ]
          exact hup
      · subst h0
        rw [show [Action.uploadedPart s n c, Action.emittedState v2] ++
            (runEvents T d1 t).acts =
          Action.uploadedPart s n c :: Action.emittedState v2 ::
            (runEvents T d1 t).acts from rfl] at h ⊢
        match i with
        | 0 =>
          rw [List.getElem?_cons_zero] at h
          injection h with h4
          exact Action.noConfusion h4
        | 1 =>
          exact ⟨s, n, c, Nat.le_refl 1, rfl⟩
        | Nat.succ (Nat.succ j) =>
          rw [List.getElem?_cons_succ, List.getElem?_cons_succ] at h
          obtain ⟨s2, n2, c2, hj1, hup⟩ := ih d1 j v h
          obtain ⟨k, rfl⟩ : ∃ k, j = k + 1 := ⟨j - 1, by omega⟩
          refine ⟨s2, n2, c2, by omega, ?_⟩
          show (Action.uploadedPart s n c :: Action.emittedState v2 ::
            (runEvents T d1 t).acts)[k + 2]? = _
          rw [List.getElem?_cons_succ, List.getElem?_cons_succ]
          exact hup

/-- The finalize loop uploads remainder Parts and completes streams; it
never emits a checkpoint. -/
theorem completeAll_no_emit :
    ∀ (l : List (String × Uploader)) (v : Json),
    Action.emittedState v ∉ (completeAll l).1 := by
  intro l
  induction l with
  | nil =>
    intro v h
    exact List.not_mem_nil _ h
  | cons su rest ih =>
    intro v h
    cases hc : complete su.2 with
    | error e =>
      simp only [completeAll, hc] at h
      exact List.not_mem_nil _ h
    | ok u2 =>
      simp only [completeAll, hc] at h
      rcases List.mem_append.mp h with h1 | h1
      · split at h1 <;> simp at h1
      · exact ih v h1

/-- After the last emission of a `acts ++ [emit]` block no completion
follows. -/
theorem emit_last_no_completed (acts : List Action) (v0 : Json) (i : Nat)
    (v : Json) (hno : ∀ w, Action.emittedState w ∉ acts)
    (h : (acts ++ [Action.emittedState v0])[i]? =
      some (Action.emittedState v)) :
    ∀ j s, i ≤ j →
      (acts ++ [Action.emittedState v0])[j]? ≠
        some (Action.completedStream s) := by
  intro j s hij hj
  have hi : acts.length ≤ i := by
    by_contra hlt
    rw [List.getElem?_append_left (Nat.not_le.mp hlt)] at h
    exact hno v (List.getElem?_mem h)
  have hjge : acts.length ≤ j := le_trans hi hij
  rw [List.getElem?_append_right hjge] at hj
  rcases hd : j - acts.length with _ | k
  · rw [hd] at hj
    injection hj with h4
    exact Action.noConfusion h4
  · rw [hd] at hj
    rw [List.getElem?_cons_succ] at hj
    simp at hj

/-- In the `finally` block's action trace, an emission is never followed
(at the same position or later) by a stream completion: the unconditional
shutdown emission comes after every uploader has been finalized. -/
theorem finalize_emit_last (d : Driver) (i : Nat) (v : Json)
    (h : (finalize d).1[i]? = some (Action.emittedState v)) :
    ∀ j s, i ≤ j →
      (finalize d).1[j]? ≠ some (Action.completedStream s) := by
  have hno : ∀ w, Action.emittedState w ∉ (completeAll d.uploaders).1 :=
    fun w => completeAll_no_emit d.uploaders w
  unfold finalize at h ⊢
  cases hc : (completeAll d.uploaders).2 with
  | some e =>
    rw [hc] at h
    exact absurd (hno v (List.getElem?_mem h)) (fun hx => hx)
  | none =>
    cases hp : d.state_from_tap with
    | none =>
      rw [hc, hp] at h
      exact absurd (hno v (List.getElem?_mem h)) (fun hx => hx)
    | some v0 =>
      rw [hc, hp] at h
      intro j s hij
      show ((completeAll d.uploaders).1 ++ [Action.emittedState v0])[j]? ≠
        some (Action.completedStream s)
      exact emit_last_no_completed (completeAll d.uploaders).1 v0 i v hno h j s hij

/-! ## C1: checkpoint release gating -/

/-- C1 counterexample. In the concrete run, the row of stream s2 is
received before the STATE message, yet the checkpoint is emitted (trace
index 1, right after s1's flush) while that row is still buffered: s2's
only Part upload happens later, at trace index 2, during shutdown. So a
checkpoint IS emitted while rows received before it are still buffered
un-flushed, refuting the claim's global clause. -/
theorem checkpoint_gating_cex :
    (runMain gateValidate gateTransform 2 gateMsgs).1 =
      [Action.uploadedPart "s1" 1 2, Action.emittedState gateDoc,
       Action.uploadedPart "s2" 1 1, Action.completedStream "s2",
       Action.completedStream "s1", Action.emittedState gateDoc] ∧
    (runMain gateValidate gateTransform 2 gateMsgs).1[1]? =
      some (Action.emittedState gateDoc) ∧
    (runMain gateValidate gateTransform 2 gateMsgs).1[2]? =
      some (Action.uploadedPart "s2" 1 1) :=
  ⟨rfl, rfl, rfl⟩

/-- C1 (amended). In every run, a pending checkpoint is emitted only
immediately after a Part upload of the `add_record` call that reported the
flush, or unconditionally at shutdown after every uploader has been
finalized (no completion occurs at or after that emission). The gating is
per flushing stream only: rows of OTHER streams received before the
checkpoint may still sit un-flushed in their buffers at emission time (see
the counterexample). -/
theorem checkpoint_gating (validate : Nat → Row → ValResult)
    (transform : Row → Row) (T : Nat) (ms : List Message) :
    ∀ i v, (runMain validate transform T ms).1[i]? =
        some (Action.emittedState v) →
      (∃ s n c, 1 ≤ i ∧ (runMain validate transform T ms).1[i-1]? =
        some (Action.uploadedPart s n c)) ∨
      (∀ j s, i ≤ j → (runMain validate transform T ms).1[j]? ≠
        some (Action.completedStream s)) := by
  intro i v h
  have htr : (runMain validate transform T ms).1 =
      (runEvents T initDriver
        (processAll validate transform initProcState ms).events).acts ++
      (finalize (runEvents T initDriver
        (processAll validate transform initProcState ms).events).d).1 := rfl
  by_cases hi : i < (runEvents T initDriver
      (processAll validate transform initProcState ms).events).acts.length
  · left
    rw [htr, List.getElem?_append_left hi] at h
    obtain ⟨s, n, c, h1, hup⟩ := runEvents_emit_after_upload T
      (processAll validate transform initProcState ms).events initDriver i v h
    refine ⟨s, n, c, h1, ?_⟩
    rw [htr, List.getElem?_append_left (by omega)]
    exact hup
  · right
    intro j s hij hcon
    have hile : (runEvents T initDriver
        (processAll validate transform initProcState ms).events).acts.length ≤ i :=
      Nat.not_lt.mp hi
    rw [htr, List.getElem?_append_right hile] at h
    have hjge : (runEvents T initDriver
        (processAll validate transform initProcState ms).events).acts.length ≤ j :=
      le_trans hile hij
    rw [htr, List.getElem?_append_right hjge] at hcon
    exact finalize_emit_last
      (runEvents T initDriver
        (processAll validate transform initProcState ms).events).d
      (i - (runEvents T initDriver
        (processAll validate transform initProcState ms).events).acts.length)
      v h (j - (runEvents T initDriver
        (processAll validate transform initProcState ms).events).acts.length)
      s (by omega) hcon

/-- C1 witness: the amended theorem applied at the concrete run's emission
(trace index 1): it is immediately preceded by s1's Part upload, or no
completion follows it. -/
theorem checkpoint_gating_witness :
    (∃ s n c, 1 ≤ 1 ∧ (runMain gateValidate gateTransform 2 gateMsgs).1[0]? =
      some (Action.uploadedPart s n c)) ∨
    (∀ j s, 1 ≤ j → (runMain gateValidate gateTransform 2 gateMsgs).1[j]? ≠
      some (Action.completedStream s)) :=
  checkpoint_gating gateValidate gateTransform 2 gateMsgs 1 gateDoc rfl

end S3CsvTarget
